import Mathlib

/-!
Verification development for the microfoon repository: a shallow embedding of
the deduplication engine (scripts/cleanup_db.py), the ingestion controller
(microfoon/main.py), the transcription retry policy
(microfoon/intelligence.py) and the consistency checker
(scripts/check_consistency.py), together with theorems settling the spec
claims about them.

Conventions: Python strings become Lean String, nullable values become
Option, the filesystem becomes an explicit finite map (a function into
Option), floats used only for ratio comparisons become rationals, and
per-record exceptions become Except values threaded explicitly.
-/

set_option maxHeartbeats 1000000

/-! ## String helpers

Executable models of the Python string primitives used by the scripts
(str.strip, str.upper, str.lower, str.startswith, substring containment).
They work over the character list so that witnesses can be checked by
kernel evaluation. -/

/-- Model of Python str.strip (both ends, whitespace). -/
def pyStripChars (cs : List Char) : List Char :=
  ((cs.dropWhile Char.isWhitespace).reverse.dropWhile Char.isWhitespace).reverse

/-- Model of Python str.strip on strings. -/
def pyStrip (s : String) : String :=
  String.mk (pyStripChars s.toList)

/-- Model of Python str.upper. -/
def pyUpper (s : String) : String :=
  String.mk (s.toList.map Char.toUpper)

/-- Model of Python str.lower. -/
def pyLower (s : String) : String :=
  String.mk (s.toList.map Char.toLower)

/-- Model of Python str.startswith. -/
def pyStartsWith (s pre : String) : Bool :=
  pre.toList.isPrefixOf s.toList

/-- Substring test on character lists (model of the Python `in` operator). -/
def listHasSub (needle : List Char) : List Char → Bool
  | [] => needle.isEmpty
  | c :: rest => needle.isPrefixOf (c :: rest) || listHasSub needle rest

/-- Model of Python `needle in hay` for strings. -/
def containsSub (hay needle : String) : Bool :=
  listHasSub needle.toList hay.toList

/-! ## Deduplication engine (scripts/cleanup_db.py)

A database row as selected by analyze_database:
id, original_filename, stored_filename, transcript, status, source_path.
The recordings directory is modelled as a map from stored filename to the
file size in bytes (none when the file is absent). -/

/-- One row of the recordings table, in the column order used by
cleanup_db.py (id, original_filename, stored_filename, transcript, status,
source_path). -/
structure DbRec where
  id : Nat
  original_filename : Option String
  stored_filename : Option String
  transcript : Option String
  status : Option String
  source_path : Option String
deriving DecidableEq, Repr

/-- The recordings directory: stored filename to file size in bytes;
none means the file does not exist. -/
def FSize : Type := String → Option Nat

/-- Embeds get_file_size: None for a null/empty stored filename, else the
size of the file when it exists. -/
def get_file_size (fs : FSize) : Option String → Option Nat
  | none => none
  | some s => if s = "" then none else fs s

/-- The constant FILE_SIZE_TOLERANCE = 0.10 of cleanup_db.py. -/
def FILE_SIZE_TOLERANCE : ℚ := 10 / 100

/-- The constant TRANSCRIPT_SIMILARITY_THRESHOLD = 0.85 of cleanup_db.py. -/
def TRANSCRIPT_SIMILARITY_THRESHOLD : ℚ := 85 / 100

/-- Embeds file_size_similar: false when either size is None, equality when
either is zero, otherwise min/max at least 1 - tolerance. -/
def file_size_similar (s1 s2 : Option Nat) : Bool :=
  match s1, s2 with
  | some a, some b =>
    if a = 0 || b = 0 then a == b
    else decide (((min a b : Nat) : ℚ) / ((max a b : Nat) : ℚ) ≥ 1 - FILE_SIZE_TOLERANCE)
  | _, _ => false

/-- Embeds text_similarity, parameterized by the character-level ratio
function (difflib.SequenceMatcher.ratio, an external library): 0 when either
text is empty, else the ratio of the two stripped texts. -/
def text_similarity (ratio : String → String → ℚ) (t1 t2 : String) : ℚ :=
  if t1 = "" || t2 = "" then 0 else ratio (pyStrip t1) (pyStrip t2)

/-- Embeds the idiom `transcript.strip() if transcript else ""` used
throughout cleanup_db.py. -/
def pyClean : Option String → String
  | none => ""
  | some t => if t = "" then "" else pyStrip t

/-- Embeds extract_date_from_stored_filename: the leading YYYYMMDD segment
when the name matches `8 digits, underscore, 6 digits, underscore`. -/
def extract_date_from_stored_filename (stored : Option String) : Option String :=
  match stored with
  | none => none
  | some s =>
    if s = "" then none
    else
      let cs := s.toList
      let d := cs.take 8
      let r1 := cs.drop 8
      let t := (r1.drop 1).take 6
      if d.length == 8 && d.all Char.isDigit && r1.take 1 == ['_'] &&
         t.length == 6 && t.all Char.isDigit && (r1.drop 7).take 1 == ['_']
      then some (String.mk d) else none

/-- Insertion into an insertion-ordered grouping, the model of appending to
a defaultdict(list) entry: Python dicts preserve key insertion order and
append within a group. -/
def groupInsert {κ α : Type} [DecidableEq κ] (k : κ) (a : α) :
    List (κ × List α) → List (κ × List α)
  | [] => [(k, [a])]
  | (k', as) :: rest =>
    if k' = k then (k', as ++ [a]) :: rest else (k', as) :: groupInsert k a rest

/-- Tier-1 admission test of find_duplicate_groups: the record is skipped
when its file is missing, or its original filename is null, empty, or a
macOS metadata name; otherwise it is grouped by (upper-cased original
filename, date extracted from the stored filename). -/
def tier1Key (fs : FSize) (r : DbRec) : Option (String × Option String) :=
  match get_file_size fs r.stored_filename with
  | none => none
  | some _ =>
    match r.original_filename with
    | none => none
    | some oname =>
      if oname = "" || pyStartsWith oname "._" then none
      else some (pyUpper oname, extract_date_from_stored_filename r.stored_filename)

/-- First pass of find_duplicate_groups: group by (original_filename, date). -/
def tier1Groups (fs : FSize) (records : List DbRec) :
    List ((String × Option String) × List DbRec) :=
  records.foldl (fun acc r =>
    match tier1Key fs r with
    | none => acc
    | some k => groupInsert k r acc) []

/-- The groups of size at least two, kept as duplicate groups. -/
def multiGroups {κ : Type} (gs : List (κ × List DbRec)) : List (List DbRec) :=
  (gs.filter (fun g => decide (1 < g.2.length))).map (·.2)

/-- The members of the singleton groups, passed on to the next tier in key
insertion order (which is their order of first appearance). -/
def singletonsFlat {κ : Type} (gs : List (κ × List DbRec)) : List DbRec :=
  (gs.filter (fun g => decide (g.2.length ≤ 1))).flatMap (·.2)

/-- Second pass of find_duplicate_groups: exact grouping of the remaining
records by (file size, stripped transcript), skipping empty transcripts. -/
def tier2Groups (fs : FSize) (remaining : List DbRec) :
    List ((Option Nat × String) × List DbRec) :=
  remaining.foldl (fun acc r =>
    let tclean := pyClean r.transcript
    if tclean = "" then acc
    else groupInsert (get_file_size fs r.stored_filename, tclean) r acc) []

/-- The joint similarity condition of the third pass: similar file sizes and
transcript similarity at least the threshold. -/
def tier3Match (fs : FSize) (ratio : String → String → ℚ) (thr : ℚ)
    (rec1 rec2 : DbRec) : Bool :=
  file_size_similar (get_file_size fs rec1.stored_filename)
      (get_file_size fs rec2.stored_filename)
    && decide (text_similarity ratio (pyClean rec1.transcript)
        (pyClean rec2.transcript) ≥ thr)

/-- The body of the inner loop of the third pass (one j of
range(i+1, n)): skip a used index, skip an empty-transcript candidate,
append a matching candidate to the seed's group and mark its index used. -/
def tier3InnerStep (f : DbRec → DbRec → Bool) (cands : List DbRec) (rec1 : DbRec)
    (p : List DbRec × List Nat) (j : Nat) : List DbRec × List Nat :=
  if j ∈ p.2 then p
  else
    match cands[j]? with
    | none => p
    | some rec2 =>
      if pyClean rec2.transcript = "" then p
      else if f rec1 rec2 then (p.1 ++ [rec2], j :: p.2) else p

/-- The inner loop of the third pass (for j in range(i+1, n)). -/
def tier3Inner (f : DbRec → DbRec → Bool) (cands : List DbRec) (rec1 : DbRec)
    (js : List Nat) (init : List DbRec × List Nat) : List DbRec × List Nat :=
  js.foldl (tier3InnerStep f cands rec1) init

/-- One step of the outer loop of the third pass (index i): skip used or
empty-transcript seeds, otherwise run the inner loop and keep the group when
it has more than one member. -/
def tier3OuterStep (f : DbRec → DbRec → Bool) (cands : List DbRec)
    (st : List Nat × List (List DbRec)) (i : Nat) : List Nat × List (List DbRec) :=
  if i ∈ st.1 then st
  else
    match cands[i]? with
    | none => st
    | some rec1 =>
      if pyClean rec1.transcript = "" then st
      else
        let p := tier3Inner f cands rec1
          (List.range' (i + 1) (cands.length - (i + 1))) ([rec1], i :: st.1)
        (p.2, if decide (1 < p.1.length) then st.2 ++ [p.1] else st.2)

/-- Third pass of find_duplicate_groups as written in the source: an index
loop with a used_indices set. -/
def tier3Imp (f : DbRec → DbRec → Bool) (cands : List DbRec) : List (List DbRec) :=
  ((List.range cands.length).foldl (tier3OuterStep f cands) ([], [])).2

/-- The decision the inner loop makes about one later candidate, as a
predicate on the candidate: the candidate is skipped when its stripped
transcript is empty, and joins the seed's group exactly when it matches the
seed. -/
def seedKeep (f : DbRec → DbRec → Bool) (rec1 rec2 : DbRec) : Bool :=
  decide (pyClean rec2.transcript ≠ "") && f rec1 rec2

/-- Modelled from the spec: the Tier-3 policy in the spec's words — process
candidates in order, each not-yet-assigned candidate seeds a new cluster,
every later not-yet-assigned candidate joins exactly when it matches the
seed alone, and clusters of size 1 are discarded. Compared against the
source's index-based loop tier3Imp below. -/
def tier3Seed (f : DbRec → DbRec → Bool) : List DbRec → List (List DbRec)
  | [] => []
  | rec1 :: rest =>
    if pyClean rec1.transcript = "" then tier3Seed f rest
    else
      let joined := rest.filter (seedKeep f rec1)
      let rest2 := rest.filter (fun rec2 => !seedKeep f rec1 rec2)
      (if decide (1 < (rec1 :: joined).length) then [rec1 :: joined] else []) ++
        tier3Seed f rest2
  termination_by l => l.length
  decreasing_by
    · simp only [List.length_cons]; omega
    · have := List.length_filter_le (fun rec2 => !seedKeep f rec1 rec2) rest
      simp only [List.length_cons]; omega

/-- Embeds find_duplicate_groups: tier-1 identity-key groups, then tier-2
exact-signature groups among the remaining records, then tier-3 similarity
groups among the remaining candidates. -/
def find_duplicate_groups (fs : FSize) (ratio : String → String → ℚ) (thr : ℚ)
    (records : List DbRec) : List (List DbRec) :=
  let gs1 := tier1Groups fs records
  let gs2 := tier2Groups fs (singletonsFlat gs1)
  multiGroups gs1 ++ multiGroups gs2 ++
    tier3Imp (tier3Match fs ratio thr) (singletonsFlat gs2)

/-- The similarity candidates handed to the third pass. -/
def simCandidates (fs : FSize) (records : List DbRec) : List DbRec :=
  singletonsFlat (tier2Groups fs (singletonsFlat (tier1Groups fs records)))

/-- The analysis record returned by analyze_database. -/
structure Analysis where
  all_records : List DbRec
  duplicate_groups : List (List DbRec)
  missing_files : List DbRec
deriving Repr

/-- Embeds analyze_database: split records into missing and valid by file
presence, and run find_duplicate_groups on the valid ones. -/
def analyze_database (fs : FSize) (ratio : String → String → ℚ) (thr : ℚ)
    (records : List DbRec) : Analysis :=
  { all_records := records
    duplicate_groups := find_duplicate_groups fs ratio thr
      (records.filter (fun r => decide (get_file_size fs r.stored_filename ≠ none)))
    missing_files :=
      records.filter (fun r => decide (get_file_size fs r.stored_filename = none)) }

/-- First component of the Python sort key
`lambda r: (r[4] != 'EXPORTED', r[0])`: 0 for EXPORTED, 1 otherwise. -/
def recKeyFst (r : DbRec) : Nat :=
  if r.status = some "EXPORTED" then 0 else 1

/-- The ascending order used by cleanup_database on a duplicate group:
lexicographic on (status not EXPORTED, id). -/
def keyLe (a b : DbRec) : Prop :=
  recKeyFst a < recKeyFst b ∨ (recKeyFst a = recKeyFst b ∧ a.id ≤ b.id)

instance : DecidableRel keyLe := fun a b =>
  inferInstanceAs (Decidable (_ ∨ _))

instance : IsTotal DbRec keyLe :=
  ⟨fun a b => by unfold keyLe; omega⟩

instance : IsTrans DbRec keyLe :=
  ⟨fun a b c hab hbc => by unfold keyLe at *; omega⟩

/-- Embeds `sorted(group, key=lambda r: (r[4] != 'EXPORTED', r[0]))`. -/
def sortGroup (g : List DbRec) : List DbRec :=
  g.insertionSort keyLe

/-- The ids a duplicate group contributes to ids_to_delete: everything but
the first record of the sorted group. -/
def groupDeleteIds (g : List DbRec) : List Nat :=
  ((sortGroup g).drop 1).map DbRec.id

/-- The full removal recommendation of cleanup_database: ids of missing
files, then the non-retained ids of every duplicate group. -/
def ids_to_delete (analysis : Analysis) : List Nat :=
  analysis.missing_files.map DbRec.id ++
    analysis.duplicate_groups.flatMap groupDeleteIds

/-- Embeds cleanup_database: compute ids_to_delete and, only when dry_run is
false, execute the DELETE (drop the rows whose id is recommended); the
returned pair is the resulting table and the reported ids. -/
def cleanup_database (dryRun : Bool) (analysis : Analysis) (table : List DbRec) :
    List DbRec × List Nat :=
  let ids := ids_to_delete analysis
  (if dryRun then table else table.filter (fun r => decide (r.id ∉ ids)), ids)

/-- Embeds the wiring in main: `dry_run = not args.force`, then
cleanup_database(conn, analysis, dry_run=dry_run). -/
def main_cleanup (force : Bool) (analysis : Analysis) (table : List DbRec) :
    List DbRec × List Nat :=
  cleanup_database (!force) analysis table

/-! ## Ingestion controller (microfoon/main.py)

database.py and exporter.py are imported by main.py but are not part of the
given sources; the Recording entity and the processing states are modelled
from the spec, and the exporter and the Gemini call are modelled as
external outcomes (a returned value or a raised exception). -/

/-- Modelled from the spec: the four processing states of the Recording
state machine (database.py, absent from the sources). -/
inductive ProcessingStatus where
  | processing
  | completed
  | exported
  | failed
deriving DecidableEq, Repr

/-- Modelled from the spec: the Recording entity of database.py (absent
from the sources), with the columns named in the spec's data model. -/
structure Recording where
  original_filename : String
  stored_filename : String
  source_path : String
  status : ProcessingStatus
  transcript : Option String := none
  summary : Option String := none
  title : Option String := none
  obsidian_path : Option String := none
  error_message : Option String := none
deriving DecidableEq, Repr

/-- The JSON dictionary returned by GeminiProcessor.process_audio, read with
result.get(key) which yields None for an absent key: each field is
individually optional. -/
structure GeminiResult where
  transcript : Option String
  cleanup : Option String
  title : Option String
deriving DecidableEq, Repr

/-- The external outcomes one iteration of the process_usb_drive loop can
observe: the copy to storage (a stored filename or a raised exception), the
Gemini call (a result, None, or a raised exception), and the export (a note
path, a falsy result, or a raised exception). -/
structure FileWorld where
  copyRes : Except String String
  geminiRes : Except String (Option GeminiResult)
  exportRes : Except String (Option String)

/-- The Recording row created and committed before the try block of
process_usb_drive: status PROCESSING, every other pipeline field null. -/
def initRec (name stored srcPath : String) : Recording :=
  { original_filename := name, stored_filename := stored,
    source_path := srcPath, status := .processing }

/-- Embeds the try/except block of process_usb_drive (main.py lines 69-96):
on a Gemini result the transcript/summary/title fields are assigned from
result.get and status becomes COMPLETED; printing the summary preview
`recording.summary[:200]` raises a TypeError when the summary is None; a
successful export sets obsidian_path and EXPORTED; a falsy Gemini result
sets FAILED with a fixed message; any exception reaching the except clause
sets FAILED and error_message while leaving the other fields as assigned. -/
def processTry (w : FileWorld) (rec : Recording) : Recording :=
  match w.geminiRes with
  | .error e => { rec with status := .failed, error_message := some e }
  | .ok none =>
    { rec with status := .failed,
               error_message := some "Gemini processing returned no result" }
  | .ok (some r) =>
    let rec1 := { rec with transcript := r.transcript, summary := r.cleanup,
                           title := r.title, status := .completed }
    match rec1.summary with
    | none =>
      { rec1 with status := .failed,
                  error_message := some "TypeError: NoneType object is not subscriptable" }
    | some _ =>
      match w.exportRes with
      | .error e => { rec1 with status := .failed, error_message := some e }
      | .ok none => rec1
      | .ok (some p) => { rec1 with obsidian_path := some p, status := .exported }

/-- The committed row one batch entry leaves behind: none when the copy step
raised (no row is created), otherwise the record after the try block. -/
def fileRecord (p : String × FileWorld) : Option Recording :=
  match p.2.copyRes with
  | .error _ => none
  | .ok stored => some (processTry p.2 (initRec p.1 stored p.1))

/-- Embeds the per-file loop of process_usb_drive over the committed store:
copy_and_rename runs before the try block, so a raised copy aborts the whole
batch (the error is returned and the remaining files are never reached);
otherwise the row is created, mutated by the try block, committed, and the
loop continues. -/
def process_usb_drive : List (String × FileWorld) → List Recording →
    List Recording × Option String
  | [], db => (db, none)
  | (name, w) :: rest, db =>
    match w.copyRes with
    | .error e => (db, some e)
    | .ok stored =>
      process_usb_drive rest (db ++ [processTry w (initRec name stored name)])

/-! ## Transcription retry policy (microfoon/intelligence.py)

GeminiProcessor.process_audio is modelled over the sequence of per-attempt
outcomes (the body of the for loop up to the parsed JSON result, which
either returns a result or raises). The returned triple records the result
surfaced to the caller, the number of attempts made, and the list of
inter-attempt delays (seconds) slept. -/

/-- The attempt loop of process_audio: fuel is the number of attempts still
allowed including the current one, a is the 1-based attempt counter; before
every attempt after the first a fixed 3-second delay is slept; a raising
attempt returns None exactly when it was the last allowed one. -/
def process_audio_go (attempt : Nat → Except String GeminiResult) :
    Nat → Nat → List Nat → Option GeminiResult × Nat × List Nat
  | 0, a, ds => (none, a - 1, ds)
  | fuel + 1, a, ds =>
    let ds2 := if 1 < a then ds ++ [3] else ds
    match attempt a with
    | .ok r => (some r, a, ds2)
    | .error _ =>
      if fuel = 0 then (none, a, ds2) else process_audio_go attempt fuel (a + 1) ds2

/-- Embeds process_audio(audio_path, retry): max_attempts is 2 with retry
and 1 without. -/
def process_audio (retry : Bool) (attempt : Nat → Except String GeminiResult) :
    Option GeminiResult × Nat × List Nat :=
  process_audio_go attempt (if retry then 2 else 1) 1 []

/-! ## Consistency checker (scripts/check_consistency.py)

The Obsidian vault is modelled as a map from filename to none (the artifact
is missing), an unreadable artifact (open/read raises), or the readable
content. The checker threads the record store through unchanged — the
source never assigns a record field nor writes a file — so that the
read-only part of the claim is visible in the result. -/

/-- One diagnostic line printed by check_consistency. -/
inductive Finding where
  | missing (filename : String)
  | mismatch (filename : String)
  | thirdPerson (filename : String)
  | readError (filename : String) (msg : String)
deriving DecidableEq, Repr

/-- The export destination: filename to absent / unreadable / content. -/
def Vault : Type := String → Option (Except String String)

/-- Embeds the filename derivation of check_consistency (logic from
exporter.py): keep alphanumerics, spaces, dashes and underscores from the
title, strip, and append the note extension. -/
def sanitizeTitle (t : String) : String :=
  pyStrip (String.mk (t.toList.filter
    (fun c => c.isAlphanum || c == ' ' || c == '-' || c == '_')))

/-- Python truthiness of an optional string (`if not rec.summary`). -/
def truthy : Option String → Bool
  | none => false
  | some s => decide (s ≠ "")

/-- Embeds one iteration of the check_consistency loop: records with a falsy
summary are skipped; iterating over a None title raises a TypeError (there
is no guard in the source); a missing artifact is a MISSING finding; a
raising read is caught and reported as an ERROR finding; otherwise the
stripped summary must occur in the content (else MISMATCH), and a matching
content is scanned for third-person markers. -/
def checkOne (vault : Vault) (rec : Recording) : Except String (List Finding) :=
  if truthy rec.summary = false then .ok []
  else
    match rec.title with
    | none => .error "TypeError: argument of type NoneType is not iterable"
    | some t =>
      match vault (sanitizeTitle t ++ ".md") with
      | none => .ok [.missing (sanitizeTitle t ++ ".md")]
      | some (.error e) => .ok [.readError (sanitizeTitle t ++ ".md") e]
      | some (.ok content) =>
        if containsSub content (pyStrip (rec.summary.getD "")) = false then
          .ok [.mismatch (sanitizeTitle t ++ ".md")]
        else if containsSub (pyLower (rec.summary.getD "")) "the speaker" ||
            containsSub (pyLower (rec.summary.getD "")) "he mentions" ||
            containsSub (pyLower (rec.summary.getD "")) "she mentions"
        then .ok [.thirdPerson (sanitizeTitle t ++ ".md")] else .ok []

/-- Embeds check_consistency: fold the per-record check over the store,
threading the store itself through unchanged and counting one issue per
finding; the first uncaught exception aborts the whole run. -/
def check_consistency (vault : Vault) : List Recording →
    Except String (List Recording × List Finding × Nat)
  | [] => .ok ([], [], 0)
  | rec :: rest =>
    match checkOne vault rec with
    | .error e => .error e
    | .ok fds =>
      match check_consistency vault rest with
      | .error e => .error e
      | .ok (store, fds2, n) => .ok (rec :: store, fds ++ fds2, fds.length + n)

/-! ## Proof support definitions -/

/-- Lift of a record predicate to an index, with default d for an index out
of range. -/
def matchAtD (cands : List DbRec) (P : DbRec → Bool) (d : Bool) (j : Nat) : Bool :=
  match cands[j]? with
  | some r => P r
  | none => d

/-- The candidates the third-pass loop can still visit, starting at outer
index i with the given used set: the values at the not-yet-used indices
from i on. -/
def remainingFrom (cands : List DbRec) (used : List Nat) (i : Nat) : List DbRec :=
  ((List.range' i (cands.length - i)).filter (fun j => decide (j ∉ used))).filterMap
    (fun j => cands[j]?)

/-- The property every record admitted to the clustering tiers satisfies:
it is one of the input records, its file size is readable, and its original
filename is a non-empty non-metadata name. -/
def tierAdmitted (fs : FSize) (records : List DbRec) (x : DbRec) : Prop :=
  x ∈ records ∧ get_file_size fs x.stored_filename ≠ none ∧
    ∃ s, x.original_filename = some s ∧ s ≠ "" ∧ pyStartsWith s "._" = false

/-! ## Concrete inputs used by the witness theorems -/

/-- A recordings directory with three present files of 100 bytes each. -/
def witFS : FSize :=
  fun s => if s = "f1" || s = "f2" || s = "f3" then some 100 else none

/-- A concrete similarity ratio for the witness: the aa/ab and ab/bb pairs
are close, the aa/bb pair is not. -/
def witRatio : String → String → ℚ :=
  fun s t =>
    if (s = "aa" && t = "ab") || (s = "ab" && t = "aa") ||
       (s = "ab" && t = "bb") || (s = "bb" && t = "ab") then 9 / 10
    else if s = t then 1 else 1 / 2

/-- Witness candidate A. -/
def witA : DbRec :=
  { id := 1, original_filename := some "R1.WAV", stored_filename := some "f1",
    transcript := some "aa", status := some "COMPLETED", source_path := none }

/-- Witness candidate B. -/
def witB : DbRec :=
  { id := 2, original_filename := some "R2.WAV", stored_filename := some "f2",
    transcript := some "ab", status := some "COMPLETED", source_path := none }

/-- Witness candidate C. -/
def witC : DbRec :=
  { id := 3, original_filename := some "R3.WAV", stored_filename := some "f3",
    transcript := some "bb", status := some "COMPLETED", source_path := none }

/-- A record whose stored file is absent from witFS. -/
def witMissing : DbRec :=
  { id := 7, original_filename := some "R7.WAV", stored_filename := some "gone",
    transcript := some "zz", status := some "COMPLETED", source_path := none }

/-- A present record with a macOS metadata original filename. -/
def witMeta : DbRec :=
  { id := 9, original_filename := some "._R1.WAV", stored_filename := some "f2",
    transcript := some "aa", status := some "COMPLETED", source_path := none }

/-- A per-file world whose copy to durable storage raises. -/
def witCopyRaise : FileWorld :=
  { copyRes := .error "disk full", geminiRes := .ok none, exportRes := .ok none }

/-- A per-file world whose Gemini call raises. -/
def witGeminiRaise : FileWorld :=
  { copyRes := .ok "stored_a", geminiRes := .error "boom", exportRes := .ok none }

/-- A per-file world with a successful transcription whose export raises. -/
def witExportRaise : FileWorld :=
  { copyRes := .ok "st",
    geminiRes := .ok (some ⟨some "t", some "s", some "ti"⟩),
    exportRes := .error "disk full" }

/-- A per-file world with a successful transcription and a falsy export. -/
def witExportNone : FileWorld :=
  { copyRes := .ok "st",
    geminiRes := .ok (some ⟨some "t", some "s", some "ti"⟩),
    exportRes := .ok none }

/-- A per-file world whose Gemini result lacks the cleanup key. -/
def witPartialResult : FileWorld :=
  { copyRes := .ok "st",
    geminiRes := .ok (some ⟨some "hello", none, some "t"⟩),
    exportRes := .ok none }

/-- A Recording with a non-null summary and a null title, as left behind by
a partial transcription result. -/
def witNoTitle : Recording :=
  { original_filename := "a.wav", stored_filename := "s", source_path := "p",
    status := .completed, summary := some "x", title := none }

/-- A Recording whose note artifact will be unreadable in the witness vault. -/
def witReadable : Recording :=
  { original_filename := "b.wav", stored_filename := "s2", source_path := "p",
    status := .completed, summary := some "hello", title := some "Note" }

/-- A vault in which the artifact for witReadable exists but cannot be read. -/
def witVault : Vault :=
  fun name => if name = "Note.md" then some (.error "Permission denied") else none

/-! ## Tier-3 loop refinement: the index loop equals the seed-anchored
recursion -/

theorem filterMap_filter_lift (cands : List DbRec) (P : DbRec → Bool) (d : Bool)
    (p : Nat → Bool) (js : List Nat) :
    (js.filter (fun j => p j && matchAtD cands P d j)).filterMap (fun j => cands[j]?)
      = ((js.filter p).filterMap (fun j => cands[j]?)).filter P := by
  induction js with
  | nil => simp
  | cons j js ih =>
    cases hp : p j with
    | false => simp [List.filter_cons, hp, ih]
    | true =>
      cases hj : cands[j]? with
      | none =>
        have hm : matchAtD cands P d j = d := by simp [matchAtD, hj]
        cases d with
        | false => simp [List.filter_cons, hp, hm, List.filterMap_cons, hj, ih]
        | true => simp [List.filter_cons, hp, hm, List.filterMap_cons, hj, ih]
      | some r =>
        have hm : matchAtD cands P d j = P r := by simp [matchAtD, hj]
        cases hP : P r with
        | false =>
          simp [List.filter_cons, hp, hm, hP, List.filterMap_cons, hj, ih]
        | true =>
          simp [List.filter_cons, hp, hm, hP, List.filterMap_cons, hj, ih]

theorem matchAtD_not (cands : List DbRec) (P : DbRec → Bool) (j : Nat) :
    (!matchAtD cands P false j) = matchAtD cands (fun r => !P r) true j := by
  cases hj : cands[j]? <;> simp [matchAtD, hj]

theorem tier3InnerStep_skip (f : DbRec → DbRec → Bool) (cands : List DbRec)
    (rec1 : DbRec) (p : List DbRec × List Nat) (j : Nat) (h : j ∈ p.2) :
    tier3InnerStep f cands rec1 p j = p := by
  simp [tier3InnerStep, h]

theorem tier3InnerStep_oob (f : DbRec → DbRec → Bool) (cands : List DbRec)
    (rec1 : DbRec) (p : List DbRec × List Nat) (j : Nat) (h : j ∉ p.2)
    (hj : cands[j]? = none) :
    tier3InnerStep f cands rec1 p j = p := by
  simp [tier3InnerStep, h, hj]

theorem tier3InnerStep_nokeep (f : DbRec → DbRec → Bool) (cands : List DbRec)
    (rec1 rec2 : DbRec) (p : List DbRec × List Nat) (j : Nat) (h : j ∉ p.2)
    (hj : cands[j]? = some rec2) (hk : seedKeep f rec1 rec2 = false) :
    tier3InnerStep f cands rec1 p j = p := by
  simp only [tier3InnerStep, if_neg h, hj]
  by_cases hcl : pyClean rec2.transcript = ""
  · simp [hcl]
  · have hf : f rec1 rec2 = false := by
      simpa [seedKeep, hcl] using hk
    simp [hcl, hf]

theorem tier3InnerStep_keep (f : DbRec → DbRec → Bool) (cands : List DbRec)
    (rec1 rec2 : DbRec) (p : List DbRec × List Nat) (j : Nat) (h : j ∉ p.2)
    (hj : cands[j]? = some rec2) (hk : seedKeep f rec1 rec2 = true) :
    tier3InnerStep f cands rec1 p j = (p.1 ++ [rec2], j :: p.2) := by
  have hcl : pyClean rec2.transcript ≠ "" := by
    intro hc
    simp [seedKeep, hc] at hk
  have hf : f rec1 rec2 = true := by
    simpa [seedKeep, hcl] using hk
  simp [tier3InnerStep, h, hj, hcl, hf]

theorem tier3Inner_spec (f : DbRec → DbRec → Bool) (cands : List DbRec) (rec1 : DbRec)
    (js : List Nat) (grp : List DbRec) (added used0 : List Nat)
    (hinc : js.Pairwise (· < ·))
    (hadd : ∀ j ∈ js, ∀ a ∈ added, a ≠ j) :
    (tier3Inner f cands rec1 js (grp, added ++ used0)).1
      = grp ++ ((js.filter (fun j => decide (j ∉ used0) &&
            matchAtD cands (seedKeep f rec1) false j)).filterMap (fun j => cands[j]?))
    ∧ ∀ x, (x ∈ (tier3Inner f cands rec1 js (grp, added ++ used0)).2 ↔
        x ∈ js.filter (fun j => decide (j ∉ used0) &&
            matchAtD cands (seedKeep f rec1) false j)
          ∨ x ∈ added ∨ x ∈ used0) := by
  induction js generalizing grp added with
  | nil =>
    refine ⟨by simp [tier3Inner], fun x => ?_⟩
    simp [tier3Inner, List.mem_append]
  | cons j js ih =>
    have hja : j ∉ added := fun h => (hadd j (List.mem_cons_self j js) j h) rfl
    have hinc' : js.Pairwise (· < ·) := (List.pairwise_cons.mp hinc).2
    have hadd' : ∀ j' ∈ js, ∀ a ∈ added, a ≠ j' :=
      fun j' hj' => hadd j' (List.mem_cons_of_mem _ hj')
    have hfold : tier3Inner f cands rec1 (j :: js) (grp, added ++ used0)
        = tier3Inner f cands rec1 js
            (tier3InnerStep f cands rec1 (grp, added ++ used0) j) :=
      List.foldl_cons js (grp, added ++ used0)
    by_cases hu : j ∈ used0
    · have hskip := tier3InnerStep_skip f cands rec1 (grp, added ++ used0) j
        (List.mem_append.mpr (Or.inr hu))
      rw [hfold, hskip]
      obtain ⟨h1, h2⟩ := ih grp added hinc' hadd'
      rw [List.filter_cons_of_neg (by simp [hu])]
      exact ⟨h1, h2⟩
    · have hnp : j ∉ added ++ used0 := by
        simp [List.mem_append, hja, hu]
      cases hj : cands[j]? with
      | none =>
        rw [hfold, tier3InnerStep_oob f cands rec1 _ j hnp hj]
        obtain ⟨h1, h2⟩ := ih grp added hinc' hadd'
        rw [List.filter_cons_of_neg (by simp [matchAtD, hj])]
        exact ⟨h1, h2⟩
      | some rec2 =>
        cases hk : seedKeep f rec1 rec2 with
        | false =>
          rw [hfold, tier3InnerStep_nokeep f cands rec1 rec2 _ j hnp hj hk]
          obtain ⟨h1, h2⟩ := ih grp added hinc' hadd'
          rw [List.filter_cons_of_neg (by simp [matchAtD, hj, hk])]
          exact ⟨h1, h2⟩
        | true =>
          have hlt : ∀ j' ∈ js, j < j' := fun j' hj' =>
            (List.pairwise_cons.mp hinc).1 j' hj'
          have hadd2 : ∀ j' ∈ js, ∀ a ∈ (j :: added), a ≠ j' := by
            intro j' hj' a ha
            rcases List.mem_cons.mp ha with rfl | ha'
            · exact Nat.ne_of_lt (hlt j' hj')
            · exact hadd' j' hj' a ha'
          rw [hfold, tier3InnerStep_keep f cands rec1 rec2 _ j hnp hj hk]
          rw [show (j :: (added ++ used0) : List Nat) = (j :: added) ++ used0 from rfl]
          obtain ⟨h1, h2⟩ := ih (grp ++ [rec2]) (j :: added) hinc' hadd2
          rw [List.filter_cons_of_pos (by simp [matchAtD, hj, hk, hu])]
          constructor
          · rw [h1, List.filterMap_cons_some hj, List.append_assoc]
            rfl
          · intro x
            rw [h2 x]
            simp only [List.mem_cons]
            tauto

theorem tier3Seed_nil (f : DbRec → DbRec → Bool) : tier3Seed f [] = [] := by
  rw [tier3Seed]

theorem tier3Seed_cons_empty (f : DbRec → DbRec → Bool) (rec1 : DbRec)
    (rest : List DbRec) (hcl : pyClean rec1.transcript = "") :
    tier3Seed f (rec1 :: rest) = tier3Seed f rest := by
  rw [tier3Seed]
  simp [hcl]

theorem tier3Seed_cons (f : DbRec → DbRec → Bool) (rec1 : DbRec)
    (rest : List DbRec) (hcl : ¬pyClean rec1.transcript = "") :
    tier3Seed f (rec1 :: rest) =
      (if decide (1 < (rec1 :: rest.filter (seedKeep f rec1)).length)
        then [rec1 :: rest.filter (seedKeep f rec1)] else []) ++
      tier3Seed f (rest.filter (fun rec2 => !seedKeep f rec1 rec2)) := by
  rw [tier3Seed]
  simp [hcl]

theorem tier3Outer_spec (f : DbRec → DbRec → Bool) (cands : List DbRec) :
    ∀ (k i : Nat) (used : List Nat) (groups : List (List DbRec)),
      i + k = cands.length →
      ((List.range' i k).foldl (tier3OuterStep f cands) (used, groups)).2
        = groups ++ tier3Seed f (remainingFrom cands used i) := by
  intro k
  induction k with
  | zero =>
    intro i used groups hik
    rw [show List.range' i 0 = [] from rfl]
    rw [remainingFrom, show cands.length - i = 0 by omega]
    rw [show List.range' i 0 = [] from rfl]
    simp [tier3Seed_nil]
  | succ k ih =>
    intro i used groups hik
    have hilt : i < cands.length := by omega
    have hget : cands[i]? = some cands[i] := List.getElem?_eq_getElem hilt
    have hsub : cands.length - i = (cands.length - (i + 1)) + 1 := by omega
    rw [List.range'_succ, List.foldl_cons]
    by_cases hu : i ∈ used
    · have hstep : tier3OuterStep f cands (used, groups) i = (used, groups) := by
        simp [tier3OuterStep, hu]
      rw [hstep, ih (i + 1) used groups (by omega)]
      have hrem : remainingFrom cands used i = remainingFrom cands used (i + 1) := by
        rw [remainingFrom, remainingFrom, hsub, List.range'_succ]
        rw [List.filter_cons_of_neg (by simp [hu])]
      rw [hrem]
    · have hrem : remainingFrom cands used i
          = cands[i] :: remainingFrom cands used (i + 1) := by
        rw [remainingFrom, remainingFrom, hsub, List.range'_succ]
        rw [List.filter_cons_of_pos (by simp [hu])]
        rw [List.filterMap_cons_some hget]
      by_cases hcl : pyClean (cands[i]).transcript = ""
      · have hstep : tier3OuterStep f cands (used, groups) i = (used, groups) := by
          simp [tier3OuterStep, hu, hget, hcl]
        rw [hstep, ih (i + 1) used groups (by omega), hrem]
        rw [tier3Seed_cons_empty f _ _ hcl]
      · have hinc : (List.range' (i + 1) (cands.length - (i + 1))).Pairwise (· < ·) :=
          List.pairwise_lt_range' (i + 1) (cands.length - (i + 1))
        have hadd : ∀ j ∈ List.range' (i + 1) (cands.length - (i + 1)),
            ∀ a ∈ [i], a ≠ j := by
          intro j hj a ha
          have hjb : i + 1 ≤ j := (List.mem_range'_1.mp hj).1
          rcases List.mem_cons.mp ha with rfl | h
          · omega
          · simp at h
        obtain ⟨h1, h2⟩ := tier3Inner_spec f cands cands[i]
          (List.range' (i + 1) (cands.length - (i + 1))) [cands[i]] [i] used hinc hadd
        rw [show (([i] ++ used : List Nat)) = i :: used from rfl] at h1 h2
        have hstep : tier3OuterStep f cands (used, groups) i
            = ((tier3Inner f cands cands[i]
                  (List.range' (i + 1) (cands.length - (i + 1)))
                  ([cands[i]], i :: used)).2,
               if decide (1 < (tier3Inner f cands cands[i]
                  (List.range' (i + 1) (cands.length - (i + 1)))
                  ([cands[i]], i :: used)).1.length)
               then groups ++ [(tier3Inner f cands cands[i]
                  (List.range' (i + 1) (cands.length - (i + 1)))
                  ([cands[i]], i :: used)).1]
               else groups) := by
          simp only [tier3OuterStep, if_neg hu, hget, if_neg hcl]
        have h1' : (tier3Inner f cands cands[i]
              (List.range' (i + 1) (cands.length - (i + 1)))
              ([cands[i]], i :: used)).1
            = cands[i] :: (remainingFrom cands used (i + 1)).filter
                (seedKeep f cands[i]) := by
          rw [h1, filterMap_filter_lift]
          rfl
        have hremNext : remainingFrom cands (tier3Inner f cands cands[i]
              (List.range' (i + 1) (cands.length - (i + 1)))
              ([cands[i]], i :: used)).2 (i + 1)
            = (remainingFrom cands used (i + 1)).filter
                (fun r => !seedKeep f cands[i] r) := by
          rw [remainingFrom]
          have hcongr : ∀ j ∈ List.range' (i + 1) (cands.length - (i + 1)),
              decide (j ∉ (tier3Inner f cands cands[i]
                (List.range' (i + 1) (cands.length - (i + 1)))
                ([cands[i]], i :: used)).2)
              = (decide (j ∉ used) &&
                  matchAtD cands (fun r => !seedKeep f cands[i] r) true j) := by
            intro j hj
            have hjb : i + 1 ≤ j := (List.mem_range'_1.mp hj).1
            have hmem := h2 j
            by_cases hju : j ∈ used
            · have : j ∈ (tier3Inner f cands cands[i]
                  (List.range' (i + 1) (cands.length - (i + 1)))
                  ([cands[i]], i :: used)).2 :=
                hmem.mpr (Or.inr (Or.inr hju))
              simp [this, hju]
            · rw [← matchAtD_not]
              cases hm : matchAtD cands (seedKeep f cands[i]) false j with
              | true =>
                have hjF : j ∈ (List.range' (i + 1)
                    (cands.length - (i + 1))).filter
                    (fun j => decide (j ∉ used) &&
                      matchAtD cands (seedKeep f cands[i]) false j) :=
                  List.mem_filter.mpr ⟨hj, by simp [hju, hm]⟩
                have : j ∈ (tier3Inner f cands cands[i]
                    (List.range' (i + 1) (cands.length - (i + 1)))
                    ([cands[i]], i :: used)).2 :=
                  hmem.mpr (Or.inl hjF)
                simp [this]
              | false =>
                have hnotF : j ∉ (tier3Inner f cands cands[i]
                    (List.range' (i + 1) (cands.length - (i + 1)))
                    ([cands[i]], i :: used)).2 := by
                  intro hin
                  rcases hmem.mp hin with hF | hI | hU
                  · have := (List.mem_filter.mp hF).2
                    rw [hm] at this
                    simp at this
                  · simp at hI
                    omega
                  · exact hju hU
                simp [hnotF, hju]
          rw [List.filter_congr hcongr]
          rw [filterMap_filter_lift]
          rfl
        rw [hstep, ih (i + 1) _ _ (by omega), hremNext, hrem]
        rw [tier3Seed_cons f _ _ hcl]
        rw [h1']
        by_cases hlen : 1 < (cands[i] :: (remainingFrom cands used (i + 1)).filter
            (seedKeep f cands[i])).length
        · rw [if_pos (by simpa using hlen), if_pos (by simpa using hlen)]
          rw [List.append_assoc]
        · rw [if_neg (by simpa using hlen), if_neg (by simpa using hlen)]
          rfl

theorem filterMap_getElem_range (l : List DbRec) :
    (List.range l.length).filterMap (fun j => l[j]?) = l := by
  induction l with
  | nil => simp
  | cons a t ih =>
    rw [List.length_cons, List.range_succ_eq_map]
    have hhead : List.filterMap (fun j => (a :: t)[j]?)
        (0 :: List.map Nat.succ (List.range t.length))
        = a :: List.filterMap (fun j => (a :: t)[j]?)
            (List.map Nat.succ (List.range t.length)) :=
      List.filterMap_cons_some (by simp)
    rw [hhead]
    have hcomp : ((fun j => (a :: t)[j]?) ∘ Nat.succ) = fun j => t[j]? := by
      funext j
      simp
    rw [List.filterMap_map, hcomp, ih]

/-- The third-pass index loop of find_duplicate_groups computes exactly the
seed-anchored single-pass clustering. -/
theorem tier3Imp_eq_tier3Seed (f : DbRec → DbRec → Bool) (cands : List DbRec) :
    tier3Imp f cands = tier3Seed f cands := by
  have h := tier3Outer_spec f cands cands.length 0 [] [] (by omega)
  rw [tier3Imp, List.range_eq_range', h]
  have hfil : (List.range cands.length).filter
      (fun j => decide (j ∉ ([] : List Nat))) = List.range cands.length :=
    List.filter_eq_self.mpr (fun a _ => by simp)
  have hrem : remainingFrom cands [] 0 = cands := by
    rw [remainingFrom, Nat.sub_zero, ← List.range_eq_range', hfil,
      filterMap_getElem_range]
  rw [hrem]
  rfl

/-! ## Membership and ordering facts about the grouping passes -/

theorem mem_groupInsert {κ α : Type} [DecidableEq κ] (k : κ) (a : α)
    (gs : List (κ × List α)) (kv : κ × List α) (x : α)
    (hkv : kv ∈ groupInsert k a gs) (hx : x ∈ kv.2) :
    x = a ∨ ∃ kv' ∈ gs, x ∈ kv'.2 := by
  induction gs with
  | nil =>
    simp only [groupInsert, List.mem_singleton] at hkv
    subst hkv
    rcases List.mem_singleton.mp hx with rfl
    exact Or.inl rfl
  | cons hd tl ih =>
    obtain ⟨k', as⟩ := hd
    by_cases hk : k' = k
    · simp only [groupInsert, if_pos hk] at hkv
      rcases List.mem_cons.mp hkv with rfl | h
      · rcases List.mem_append.mp hx with h | h
        · exact Or.inr ⟨(k', as), List.mem_cons_self _ _, h⟩
        · exact Or.inl (List.mem_singleton.mp h)
      · exact Or.inr ⟨kv, List.mem_cons_of_mem _ h, hx⟩
    · simp only [groupInsert, if_neg hk] at hkv
      rcases List.mem_cons.mp hkv with rfl | h
      · exact Or.inr ⟨(k', as), List.mem_cons_self _ _, hx⟩
      · rcases ih h with h' | ⟨kv', hkv', hx'⟩
        · exact Or.inl h'
        · exact Or.inr ⟨kv', List.mem_cons_of_mem _ hkv', hx'⟩

theorem foldl_group_invariant {κ : Type} [DecidableEq κ] (P : DbRec → Prop)
    (step : List (κ × List DbRec) → DbRec → List (κ × List DbRec)) :
    ∀ (l : List DbRec) (acc : List (κ × List DbRec)),
      (∀ acc' r, r ∈ l → step acc' r = acc' ∨
        (P r ∧ ∃ k, step acc' r = groupInsert k r acc')) →
      (∀ kv ∈ acc, ∀ x ∈ kv.2, P x) →
      ∀ kv ∈ l.foldl step acc, ∀ x ∈ kv.2, P x := by
  intro l
  induction l with
  | nil =>
    intro acc _ hacc kv hkv x hx
    exact hacc kv hkv x hx
  | cons r l ih =>
    intro acc hstep hacc kv hkv x hx
    rw [List.foldl_cons] at hkv
    have hstep' : ∀ acc' r', r' ∈ l → step acc' r' = acc' ∨
        (P r' ∧ ∃ k, step acc' r' = groupInsert k r' acc') :=
      fun acc' r' hr' => hstep acc' r' (List.mem_cons_of_mem _ hr')
    rcases hstep acc r (List.mem_cons_self _ _) with heq | ⟨hP, k, heq⟩
    · rw [heq] at hkv
      exact ih acc hstep' hacc kv hkv x hx
    · rw [heq] at hkv
      refine ih (groupInsert k r acc) hstep' ?_ kv hkv x hx
      intro kv' hkv' y hy
      rcases mem_groupInsert k r acc kv' y hkv' hy with rfl | ⟨kv'', hkv'', hy'⟩
      · exact hP
      · exact hacc kv'' hkv'' y hy'

theorem tier1Key_some (fs : FSize) (r : DbRec) (k : String × Option String)
    (h : tier1Key fs r = some k) :
    get_file_size fs r.stored_filename ≠ none ∧
      ∃ s, r.original_filename = some s ∧ s ≠ "" ∧ pyStartsWith s "._" = false := by
  unfold tier1Key at h
  cases hsz : get_file_size fs r.stored_filename with
  | none => simp [hsz] at h
  | some sz =>
    simp only [hsz] at h
    cases ho : r.original_filename with
    | none => simp [ho] at h
    | some oname =>
      simp only [ho] at h
      by_cases h1 : oname = ""
      · simp [h1] at h
      · by_cases h2 : pyStartsWith oname "._" = true
        · simp [h1, h2] at h
        · exact ⟨by simp [hsz], oname, rfl, h1, by simpa using h2⟩

theorem tier1Groups_members (fs : FSize) (records : List DbRec) :
    ∀ kv ∈ tier1Groups fs records, ∀ x ∈ kv.2, tierAdmitted fs records x := by
  refine foldl_group_invariant (tierAdmitted fs records) _ records [] ?_ (by simp)
  intro acc r hr
  cases hk : tier1Key fs r with
  | none => exact Or.inl rfl
  | some k =>
    refine Or.inr ⟨⟨hr, (tier1Key_some fs r k hk).1, (tier1Key_some fs r k hk).2⟩,
      k, rfl⟩

theorem singletonsFlat_members {κ : Type} (gs : List (κ × List DbRec)) (x : DbRec)
    (hx : x ∈ singletonsFlat gs) : ∃ kv ∈ gs, x ∈ kv.2 := by
  rw [singletonsFlat] at hx
  obtain ⟨kv, hkv, hxkv⟩ := List.mem_flatMap.mp hx
  exact ⟨kv, (List.mem_filter.mp hkv).1, hxkv⟩

theorem multiGroups_members {κ : Type} (gs : List (κ × List DbRec))
    (g : List DbRec) (hg : g ∈ multiGroups gs) :
    1 < g.length ∧ ∃ kv ∈ gs, g = kv.2 := by
  rw [multiGroups] at hg
  obtain ⟨kv, hkv, hgkv⟩ := List.mem_map.mp hg
  have := List.mem_filter.mp hkv
  refine ⟨?_, kv, this.1, hgkv.symm⟩
  have hlen := this.2
  rw [hgkv] at hlen
  simpa using hlen

theorem tier2Groups_members (fs : FSize) (remaining : List DbRec)
    (P : DbRec → Prop) (hP : ∀ r ∈ remaining, P r) :
    ∀ kv ∈ tier2Groups fs remaining, ∀ x ∈ kv.2, P x := by
  refine foldl_group_invariant P _ remaining [] ?_ (by simp)
  intro acc r hr
  by_cases hcl : pyClean r.transcript = ""
  · exact Or.inl (by simp [hcl])
  · exact Or.inr ⟨hP r hr,
      (get_file_size fs r.stored_filename, pyClean r.transcript), by simp [hcl]⟩

theorem tier3Seed_members (f : DbRec → DbRec → Bool) :
    ∀ (n : Nat) (cands : List DbRec), cands.length ≤ n →
      ∀ g ∈ tier3Seed f cands, 2 ≤ g.length ∧ ∀ x ∈ g, x ∈ cands := by
  intro n
  induction n with
  | zero =>
    intro cands hlen g hg
    have : cands = [] := List.length_eq_zero.mp (by omega)
    subst this
    rw [tier3Seed_nil] at hg
    simp at hg
  | succ n ih =>
    intro cands hlen g hg
    cases cands with
    | nil =>
      rw [tier3Seed_nil] at hg
      simp at hg
    | cons rec1 rest =>
      rw [List.length_cons] at hlen
      by_cases hcl : pyClean rec1.transcript = ""
      · rw [tier3Seed_cons_empty _ _ _ hcl] at hg
        obtain ⟨h2, hmem⟩ := ih rest (by omega) g hg
        exact ⟨h2, fun x hx => List.mem_cons_of_mem _ (hmem x hx)⟩
      · rw [tier3Seed_cons _ _ _ hcl] at hg
        rcases List.mem_append.mp hg with h | h
        · by_cases hc : 1 < (rec1 :: rest.filter (seedKeep f rec1)).length
          · rw [if_pos (by simpa using hc)] at h
            rcases List.mem_singleton.mp h with rfl
            refine ⟨by simpa using hc, fun x hx => ?_⟩
            rcases List.mem_cons.mp hx with rfl | hx'
            · exact List.mem_cons_self _ _
            · exact List.mem_cons_of_mem _ (List.mem_of_mem_filter hx')
          · rw [if_neg (by simpa using hc)] at h
            simp at h
        · have hflen := List.length_filter_le
            (fun rec2 => !seedKeep f rec1 rec2) rest
          obtain ⟨h2, hmem⟩ := ih (rest.filter (fun rec2 => !seedKeep f rec1 rec2))
            (by omega) g h
          exact ⟨h2, fun x hx =>
            List.mem_cons_of_mem _ (List.mem_of_mem_filter (hmem x hx))⟩

/-- Every group produced by find_duplicate_groups has at least two members,
and each member is an input record whose file is present and whose original
filename is a non-empty non-metadata name. -/
theorem find_duplicate_groups_members (fs : FSize) (ratio : String → String → ℚ)
    (thr : ℚ) (records : List DbRec) :
    ∀ g ∈ find_duplicate_groups fs ratio thr records,
      2 ≤ g.length ∧ ∀ x ∈ g, tierAdmitted fs records x := by
  intro g hg
  have h1g := tier1Groups_members fs records
  have hrem : ∀ x ∈ singletonsFlat (tier1Groups fs records),
      tierAdmitted fs records x := by
    intro x hx
    obtain ⟨kv, hkv, hxkv⟩ := singletonsFlat_members _ x hx
    exact h1g kv hkv x hxkv
  have h2g := tier2Groups_members fs (singletonsFlat (tier1Groups fs records))
    (tierAdmitted fs records) hrem
  have hcand : ∀ x ∈ simCandidates fs records, tierAdmitted fs records x := by
    intro x hx
    obtain ⟨kv, hkv, hxkv⟩ := singletonsFlat_members _ x hx
    exact h2g kv hkv x hxkv
  rw [find_duplicate_groups] at hg
  rcases List.mem_append.mp hg with hg' | hg3
  · rcases List.mem_append.mp hg' with hg1 | hg2
    · obtain ⟨hlen, kv, hkv, rfl⟩ := multiGroups_members _ g hg1
      exact ⟨by omega, fun x hx => h1g kv hkv x hx⟩
    · obtain ⟨hlen, kv, hkv, rfl⟩ := multiGroups_members _ g hg2
      exact ⟨by omega, fun x hx => h2g kv hkv x hx⟩
  · rw [tier3Imp_eq_tier3Seed] at hg3
    obtain ⟨h2, hmem⟩ := tier3Seed_members (tier3Match fs ratio thr)
      (simCandidates fs records).length (simCandidates fs records) le_rfl g hg3
    exact ⟨h2, fun x hx => hcand x (hmem x hx)⟩

theorem singletonsFlat_cons {κ : Type} (kv : κ × List DbRec)
    (gs : List (κ × List DbRec)) :
    singletonsFlat (kv :: gs)
      = (if kv.2.length ≤ 1 then kv.2 else []) ++ singletonsFlat gs := by
  rw [singletonsFlat, singletonsFlat]
  by_cases h : kv.2.length ≤ 1
  · rw [List.filter_cons_of_pos (by simpa using h), List.flatMap_cons, if_pos h]
  · rw [List.filter_cons_of_neg (by simpa using h), if_neg h, List.nil_append]

theorem groupInsert_ne_nil {κ α : Type} [DecidableEq κ] (k : κ) (a : α)
    (gs : List (κ × List α)) (hne : ∀ kv ∈ gs, kv.2 ≠ []) :
    ∀ kv ∈ groupInsert k a gs, kv.2 ≠ [] := by
  induction gs with
  | nil =>
    intro kv hkv
    simp only [groupInsert, List.mem_singleton] at hkv
    subst hkv
    simp
  | cons hd tl ih =>
    obtain ⟨k', as⟩ := hd
    intro kv hkv
    by_cases hk : k' = k
    · simp only [groupInsert, if_pos hk] at hkv
      rcases List.mem_cons.mp hkv with rfl | h
      · simp
      · exact hne kv (List.mem_cons_of_mem _ h)
    · simp only [groupInsert, if_neg hk] at hkv
      rcases List.mem_cons.mp hkv with rfl | h
      · exact hne _ (List.mem_cons_self _ _)
      · exact ih (fun kv' hkv' => hne kv' (List.mem_cons_of_mem _ hkv')) kv h

theorem singletonsFlat_groupInsert_sublist {κ : Type} [DecidableEq κ] (k : κ)
    (a : DbRec) (gs : List (κ × List DbRec)) (hne : ∀ kv ∈ gs, kv.2 ≠ []) :
    (singletonsFlat (groupInsert k a gs)).Sublist (singletonsFlat gs ++ [a]) := by
  induction gs with
  | nil =>
    rw [show groupInsert k a [] = [(k, [a])] from rfl]
    rw [singletonsFlat_cons]
    simp [singletonsFlat]
  | cons hd tl ih =>
    obtain ⟨k', as⟩ := hd
    have hasne : as ≠ [] := hne (k', as) (List.mem_cons_self _ _)
    have hne' : ∀ kv ∈ tl, kv.2 ≠ [] :=
      fun kv hkv => hne kv (List.mem_cons_of_mem _ hkv)
    by_cases hk : k' = k
    · rw [show groupInsert k a ((k', as) :: tl)
        = (k', as ++ [a]) :: tl from by simp [groupInsert, hk]]
      rw [singletonsFlat_cons, singletonsFlat_cons]
      have hlen : ¬(as ++ [a]).length ≤ 1 := by
        have : 1 ≤ as.length := List.length_pos.mpr hasne
        simp only [List.length_append, List.length_singleton]
        omega
      rw [if_neg hlen, List.nil_append]
      refine (List.sublist_append_left (singletonsFlat tl) [a]).trans ?_
      exact List.Sublist.append_right
        (List.sublist_append_right (if as.length ≤ 1 then as else []) _) [a]
    · rw [show groupInsert k a ((k', as) :: tl)
        = (k', as) :: groupInsert k a tl from by simp [groupInsert, hk]]
      rw [singletonsFlat_cons, singletonsFlat_cons]
      have := List.Sublist.append_left (ih hne') (if as.length ≤ 1 then as else [])
      rw [← List.append_assoc] at this
      exact this

theorem singletonsFlat_foldl_sublist {κ : Type} [DecidableEq κ]
    (step : List (κ × List DbRec) → DbRec → List (κ × List DbRec))
    (hstep : ∀ acc r, step acc r = acc ∨ ∃ k, step acc r = groupInsert k r acc) :
    ∀ (l : List DbRec) (acc : List (κ × List DbRec)), (∀ kv ∈ acc, kv.2 ≠ []) →
      (singletonsFlat (l.foldl step acc)).Sublist (singletonsFlat acc ++ l) := by
  intro l
  induction l with
  | nil =>
    intro acc _
    rw [List.foldl_nil, List.append_nil]
  | cons r l ih =>
    intro acc hne
    rw [List.foldl_cons]
    rcases hstep acc r with heq | ⟨k, heq⟩
    · rw [heq]
      refine (ih acc hne).trans ?_
      exact List.Sublist.append_left (List.sublist_cons_self r l) _
    · rw [heq]
      have hne' : ∀ kv ∈ groupInsert k r acc, kv.2 ≠ [] :=
        groupInsert_ne_nil k r acc hne
      refine (ih (groupInsert k r acc) hne').trans ?_
      have h2 := List.Sublist.append_right
        (singletonsFlat_groupInsert_sublist k r acc hne) l
      rw [List.append_assoc] at h2
      exact h2

/-- The similarity candidates form a sublist of the input records: they are
visited in the order the records come in (ascending id for the SQL query of
analyze_database). -/
theorem simCandidates_sublist (fs : FSize) (records : List DbRec) :
    (simCandidates fs records).Sublist records := by
  have h1 : (singletonsFlat (tier1Groups fs records)).Sublist records := by
    have h := singletonsFlat_foldl_sublist
      (fun acc r => match tier1Key fs r with
        | none => acc
        | some k => groupInsert k r acc)
      (fun acc r => by
        cases hk : tier1Key fs r with
        | none => exact Or.inl (by simp [hk])
        | some k => exact Or.inr ⟨k, by simp [hk]⟩)
      records [] (by simp)
    simpa [singletonsFlat] using h
  have h2 : (singletonsFlat (tier2Groups fs
      (singletonsFlat (tier1Groups fs records)))).Sublist
      (singletonsFlat (tier1Groups fs records)) := by
    have h := singletonsFlat_foldl_sublist
      (fun acc r =>
        let tclean := pyClean r.transcript
        if tclean = "" then acc
        else groupInsert (get_file_size fs r.stored_filename, tclean) r acc)
      (fun acc r => by
        by_cases hcl : pyClean r.transcript = ""
        · exact Or.inl (by simp [hcl])
        · exact Or.inr
            ⟨(get_file_size fs r.stored_filename, pyClean r.transcript),
              by simp [hcl]⟩)
      (singletonsFlat (tier1Groups fs records)) [] (by simp)
    simpa [singletonsFlat] using h
  exact h2.trans h1

/-! ## Retention order facts -/

theorem keyLe_refl (a : DbRec) : keyLe a a := by
  unfold keyLe
  omega

theorem keyLe_antisymm_id (a b : DbRec) (hab : keyLe a b) (hba : keyLe b a) :
    a.id = b.id := by
  unfold keyLe at *
  omega

/-! ## Tier-3 scenario: three candidates A, B, C in order -/

theorem tier3Seed_three (f : DbRec → DbRec → Bool) (A B C : DbRec)
    (hA : pyClean A.transcript ≠ "") (hB : pyClean B.transcript ≠ "")
    (hC : pyClean C.transcript ≠ "")
    (hAB : f A B = true) (hAC : f A C = false) :
    tier3Seed f [A, B, C] = [[A, B]] := by
  rw [tier3Seed_cons f A [B, C] hA]
  have hkB : seedKeep f A B = true := by simp [seedKeep, hB, hAB]
  have hkC : seedKeep f A C = false := by simp [seedKeep, hAC]
  rw [show List.filter (seedKeep f A) [B, C] = [B] from by
    rw [List.filter_cons_of_pos hkB, List.filter_cons_of_neg (by simp [hkC]),
      List.filter_nil]]
  rw [show List.filter (fun rec2 => !seedKeep f A rec2) [B, C] = [C] from by
    rw [List.filter_cons_of_neg (by simp [hkB]),
      List.filter_cons_of_pos (by simp [hkC]), List.filter_nil]]
  rw [tier3Seed_cons f C [] hC]
  rw [List.filter_nil, List.filter_nil]
  rw [if_pos (by simp), if_neg (by simp)]
  rw [tier3Seed_nil]
  simp

/-! ## Claim theorems: deduplication engine -/

/-- C1: Tier-3 similarity clustering is single-pass and seed-anchored.
The conjuncts: (1) the source's index/used-set loop computes exactly the
seed-anchored recursion, in which each not-yet-assigned candidate seeds a
cluster and every later not-yet-assigned candidate joins exactly when it
matches the seed alone (file sizes similar and stripped-transcript
similarity at least 0.85, the tier3Match predicate) — clusters of size 1
are discarded by that recursion; (2) every emitted duplicate group has at
least two members; (3) candidates are processed in the fixed input order,
so ascending ids in the input give ascending ids among the similarity
candidates; (4) for candidates A, B, C in that order with sim(A,B) and
sim(B,C) at least the 0.85 threshold, sim(A,C) below it, and all sizes
similar, the output is the single cluster [A, B] and C is in no cluster. -/
theorem claim_c1_tier3_seed_anchored (fs : FSize) (ratio : String → String → ℚ) :
    (∀ (f : DbRec → DbRec → Bool) (cands : List DbRec),
        tier3Imp f cands = tier3Seed f cands) ∧
    (∀ (thr : ℚ) (records : List DbRec),
        ∀ g ∈ find_duplicate_groups fs ratio thr records, 2 ≤ g.length) ∧
    (∀ records : List DbRec, records.Pairwise (fun a b => a.id < b.id) →
        (simCandidates fs records).Pairwise (fun a b => a.id < b.id)) ∧
    (∀ A B C : DbRec, C ≠ A → C ≠ B →
        pyClean A.transcript ≠ "" → pyClean B.transcript ≠ "" →
        pyClean C.transcript ≠ "" →
        file_size_similar (get_file_size fs A.stored_filename)
          (get_file_size fs B.stored_filename) = true →
        file_size_similar (get_file_size fs B.stored_filename)
          (get_file_size fs C.stored_filename) = true →
        file_size_similar (get_file_size fs A.stored_filename)
          (get_file_size fs C.stored_filename) = true →
        text_similarity ratio (pyClean A.transcript) (pyClean B.transcript)
          ≥ TRANSCRIPT_SIMILARITY_THRESHOLD →
        text_similarity ratio (pyClean B.transcript) (pyClean C.transcript)
          ≥ TRANSCRIPT_SIMILARITY_THRESHOLD →
        text_similarity ratio (pyClean A.transcript) (pyClean C.transcript)
          < TRANSCRIPT_SIMILARITY_THRESHOLD →
        tier3Imp (tier3Match fs ratio TRANSCRIPT_SIMILARITY_THRESHOLD) [A, B, C]
            = [[A, B]] ∧
          ∀ g ∈ tier3Imp (tier3Match fs ratio TRANSCRIPT_SIMILARITY_THRESHOLD)
              [A, B, C], C ∉ g) := by
  refine ⟨tier3Imp_eq_tier3Seed, ?_, ?_, ?_⟩
  · intro thr records g hg
    exact (find_duplicate_groups_members fs ratio thr records g hg).1
  · intro records h
    exact List.Pairwise.sublist (simCandidates_sublist fs records) h
  · intro A B C hCA hCB hA hB hC hsAB hsBC hsAC htAB htBC htAC
    have hfAB : tier3Match fs ratio TRANSCRIPT_SIMILARITY_THRESHOLD A B = true := by
      rw [tier3Match, hsAB]
      simp only [Bool.true_and, decide_eq_true_eq]
      exact htAB
    have hfAC : tier3Match fs ratio TRANSCRIPT_SIMILARITY_THRESHOLD A C = false := by
      rw [tier3Match, hsAC]
      simp only [Bool.true_and, decide_eq_false_iff_not]
      exact not_le.mpr htAC
    constructor
    · rw [tier3Imp_eq_tier3Seed]
      exact tier3Seed_three _ A B C hA hB hC hfAB hfAC
    · intro g hg hCg
      rw [tier3Imp_eq_tier3Seed,
        tier3Seed_three _ A B C hA hB hC hfAB hfAC] at hg
      rcases List.mem_singleton.mp hg with rfl
      rcases List.mem_cons.mp hCg with h | h
      · exact hCA h
      · exact hCB (List.mem_singleton.mp h)

/-- Witness for C1: three concrete candidates with sim(A,B) = sim(B,C) = 0.9
and sim(A,C) = 0.5 at equal file sizes; the loop emits exactly the cluster
[A, B] and C joins nothing. -/
theorem file_size_similar_100 : file_size_similar (some 100) (some 100) = true := by
  simp only [file_size_similar]
  norm_num [FILE_SIZE_TOLERANCE]

theorem claim_c1_witness :
    (text_similarity witRatio (pyClean witA.transcript) (pyClean witB.transcript)
        ≥ TRANSCRIPT_SIMILARITY_THRESHOLD) ∧
    (text_similarity witRatio (pyClean witB.transcript) (pyClean witC.transcript)
        ≥ TRANSCRIPT_SIMILARITY_THRESHOLD) ∧
    (text_similarity witRatio (pyClean witA.transcript) (pyClean witC.transcript)
        < TRANSCRIPT_SIMILARITY_THRESHOLD) ∧
    (tier3Imp (tier3Match witFS witRatio TRANSCRIPT_SIMILARITY_THRESHOLD)
        [witA, witB, witC] = [[witA, witB]] ∧
      ∀ g ∈ tier3Imp (tier3Match witFS witRatio TRANSCRIPT_SIMILARITY_THRESHOLD)
          [witA, witB, witC], witC ∉ g) := by
  have hAB : text_similarity witRatio (pyClean witA.transcript)
      (pyClean witB.transcript) = 9 / 10 := rfl
  have hBC : text_similarity witRatio (pyClean witB.transcript)
      (pyClean witC.transcript) = 9 / 10 := rfl
  have hAC : text_similarity witRatio (pyClean witA.transcript)
      (pyClean witC.transcript) = 1 / 2 := rfl
  have hsz : ∀ x y : DbRec, x ∈ [witA, witB, witC] → y ∈ [witA, witB, witC] →
      file_size_similar (get_file_size witFS x.stored_filename)
        (get_file_size witFS y.stored_filename) = true := by
    intro x y hx hy
    have hx' : get_file_size witFS x.stored_filename = some 100 := by
      rcases List.mem_cons.mp hx with rfl | hx
      · rfl
      · rcases List.mem_cons.mp hx with rfl | hx
        · rfl
        · rcases List.mem_cons.mp hx with rfl | hx
          · rfl
          · simp at hx
    have hy' : get_file_size witFS y.stored_filename = some 100 := by
      rcases List.mem_cons.mp hy with rfl | hy
      · rfl
      · rcases List.mem_cons.mp hy with rfl | hy
        · rfl
        · rcases List.mem_cons.mp hy with rfl | hy
          · rfl
          · simp at hy
    rw [hx', hy', file_size_similar_100]
  refine ⟨by rw [hAB]; norm_num [TRANSCRIPT_SIMILARITY_THRESHOLD],
    by rw [hBC]; norm_num [TRANSCRIPT_SIMILARITY_THRESHOLD],
    by rw [hAC]; norm_num [TRANSCRIPT_SIMILARITY_THRESHOLD], ?_⟩
  exact (claim_c1_tier3_seed_anchored witFS witRatio).2.2.2 witA witB witC
    (by decide) (by decide) (by decide) (by decide) (by decide)
    (hsz witA witB (by simp) (by simp)) (hsz witB witC (by simp) (by simp))
    (hsz witA witC (by simp) (by simp))
    (by rw [hAB]; norm_num [TRANSCRIPT_SIMILARITY_THRESHOLD])
    (by rw [hBC]; norm_num [TRANSCRIPT_SIMILARITY_THRESHOLD])
    (by rw [hAC]; norm_num [TRANSCRIPT_SIMILARITY_THRESHOLD])

/-- C5: a Recording whose stored artifact is absent (file size unreadable)
is never placed in any duplicate cluster of any tier, is classified among
the missing files, and its id is always part of the removal recommendation
regardless of any similarity to other records. -/
theorem claim_c5_missing_excluded_and_removed (fs : FSize)
    (ratio : String → String → ℚ) (thr : ℚ) (records : List DbRec) (r : DbRec)
    (hmem : r ∈ records) (hmiss : get_file_size fs r.stored_filename = none) :
    (∀ g ∈ (analyze_database fs ratio thr records).duplicate_groups, r ∉ g) ∧
    r ∈ (analyze_database fs ratio thr records).missing_files ∧
    r.id ∈ ids_to_delete (analyze_database fs ratio thr records) := by
  have hmissmem : r ∈ (analyze_database fs ratio thr records).missing_files := by
    simp only [analyze_database]
    exact List.mem_filter.mpr ⟨hmem, by simp [hmiss]⟩
  refine ⟨?_, hmissmem, ?_⟩
  · intro g hg hr
    simp only [analyze_database] at hg
    exact ((find_duplicate_groups_members fs ratio thr _ g hg).2 r hr).2.1 hmiss
  · rw [ids_to_delete]
    exact List.mem_append.mpr (Or.inl (List.mem_map.mpr ⟨r, hmissmem, rfl⟩))

/-- Witness for C5: a record whose stored file is not in the directory is
reported missing, kept out of every cluster, and recommended for removal. -/
theorem claim_c5_witness :
    (witMissing ∈ [witA, witMissing] ∧
      get_file_size witFS witMissing.stored_filename = none) ∧
    ((∀ g ∈ (analyze_database witFS witRatio TRANSCRIPT_SIMILARITY_THRESHOLD
        [witA, witMissing]).duplicate_groups, witMissing ∉ g) ∧
      witMissing ∈ (analyze_database witFS witRatio
        TRANSCRIPT_SIMILARITY_THRESHOLD [witA, witMissing]).missing_files ∧
      witMissing.id ∈ ids_to_delete (analyze_database witFS witRatio
        TRANSCRIPT_SIMILARITY_THRESHOLD [witA, witMissing])) :=
  ⟨⟨by decide, by decide⟩,
    claim_c5_missing_excluded_and_removed witFS witRatio
      TRANSCRIPT_SIMILARITY_THRESHOLD [witA, witMissing] witMissing
      (by decide) (by decide)⟩

/-- C6: deterministic retention tie-break. For every duplicate group with
at least two members and pairwise distinct ids, the sorted group starts
with the unique minimum m under the ascending (status not EXPORTED, id)
order; every other member's id is in the group's removal contribution and
m's id is not, and the removal contribution is exactly the ids after the
head of the sorted group. -/
theorem claim_c6_retention_tie_break (g : List DbRec) (h2 : 2 ≤ g.length)
    (hn : (g.map DbRec.id).Nodup) :
    ∃ m t, sortGroup g = m :: t ∧ m ∈ g ∧ (∀ r ∈ g, keyLe m r) ∧
      (∀ r ∈ g, (∀ x ∈ g, keyLe r x) → r = m) ∧
      m.id ∉ groupDeleteIds g ∧
      (∀ r ∈ g, r ≠ m → r.id ∈ groupDeleteIds g) ∧
      groupDeleteIds g = t.map DbRec.id := by
  have hperm : (sortGroup g).Perm g := List.perm_insertionSort keyLe g
  have hsort : List.Sorted keyLe (sortGroup g) := List.sorted_insertionSort keyLe g
  have hlen : (sortGroup g).length = g.length := hperm.length_eq
  cases hs : sortGroup g with
  | nil =>
    rw [hs] at hlen
    simp at hlen
    omega
  | cons m t =>
    rw [hs] at hperm hsort
    have hmg : m ∈ g := hperm.mem_iff.mp (List.mem_cons_self _ _)
    have hsorted := List.sorted_cons.mp hsort
    have hmin : ∀ r ∈ g, keyLe m r := by
      intro r hr
      rcases List.mem_cons.mp (hperm.mem_iff.mpr hr) with rfl | h
      · exact keyLe_refl r
      · exact hsorted.1 r h
    have hnodup_ids : ((m :: t).map DbRec.id).Nodup :=
      (List.Perm.nodup_iff (hperm.map DbRec.id)).mpr hn
    have hmid : m.id ∉ t.map DbRec.id := by
      rw [List.map_cons] at hnodup_ids
      exact (List.nodup_cons.mp hnodup_ids).1
    have hdel : groupDeleteIds g = t.map DbRec.id := by
      rw [groupDeleteIds, hs]
      rfl
    refine ⟨m, t, rfl, hmg, hmin, ?_, ?_, ?_, hdel⟩
    · intro r hr hrmin
      exact List.inj_on_of_nodup_map hn hr hmg
        (keyLe_antisymm_id r m (hrmin m hmg) (hmin r hr))
    · rw [hdel]
      exact hmid
    · intro r hr hne
      rw [hdel]
      rcases List.mem_cons.mp (hperm.mem_iff.mpr hr) with rfl | h
      · exact absurd rfl hne
      · exact List.mem_map.mpr ⟨r, h, rfl⟩

/-- Witness for C6: a two-member group in which the higher-id EXPORTED
record is retained and the lower-id one is recommended for removal. -/
theorem claim_c6_witness :
    (2 ≤ ([witA, { witB with status := some "EXPORTED" }] : List DbRec).length ∧
      (([witA, { witB with status := some "EXPORTED" }] : List DbRec).map
        DbRec.id).Nodup) ∧
    (∃ m t, sortGroup [witA, { witB with status := some "EXPORTED" }] = m :: t ∧
      m ∈ [witA, { witB with status := some "EXPORTED" }] ∧
      (∀ r ∈ [witA, { witB with status := some "EXPORTED" }], keyLe m r) ∧
      (∀ r ∈ [witA, { witB with status := some "EXPORTED" }],
        (∀ x ∈ [witA, { witB with status := some "EXPORTED" }], keyLe r x) →
          r = m) ∧
      m.id ∉ groupDeleteIds [witA, { witB with status := some "EXPORTED" }] ∧
      (∀ r ∈ [witA, { witB with status := some "EXPORTED" }], r ≠ m →
        r.id ∈ groupDeleteIds [witA, { witB with status := some "EXPORTED" }]) ∧
      groupDeleteIds [witA, { witB with status := some "EXPORTED" }]
        = t.map DbRec.id) :=
  ⟨⟨by decide, by decide⟩,
    claim_c6_retention_tie_break [witA, { witB with status := some "EXPORTED" }]
      (by decide) (by decide)⟩

/-- C8: report-only by default. Without force the pass leaves the table
unchanged and only reports the removal ids (the dry-run branch), and the
force flag is the only path on which the DELETE filter runs. -/
theorem claim_c8_report_only_default (analysis : Analysis) (table : List DbRec) :
    main_cleanup false analysis table = (table, ids_to_delete analysis) ∧
    cleanup_database true analysis table = (table, ids_to_delete analysis) ∧
    main_cleanup true analysis table
      = (table.filter (fun r => decide (r.id ∉ ids_to_delete analysis)),
          ids_to_delete analysis) :=
  ⟨rfl, rfl, rfl⟩

/-- C10: a present record whose original_filename is null or starts with
"._" is silently excluded: it is in no duplicate cluster, is not classified
missing, and (with distinct record ids) its id is never recommended for
removal. -/
theorem claim_c10_metadata_silently_excluded (fs : FSize)
    (ratio : String → String → ℚ) (thr : ℚ) (records : List DbRec) (r : DbRec)
    (hmem : r ∈ records) (hpresent : get_file_size fs r.stored_filename ≠ none)
    (hname : r.original_filename = none ∨
      ∃ s, r.original_filename = some s ∧ pyStartsWith s "._" = true)
    (hids : (records.map DbRec.id).Nodup) :
    (∀ g ∈ (analyze_database fs ratio thr records).duplicate_groups, r ∉ g) ∧
    r ∉ (analyze_database fs ratio thr records).missing_files ∧
    r.id ∉ ids_to_delete (analyze_database fs ratio thr records) := by
  have hcontra : ∀ x : DbRec, x = r →
      (∃ s, x.original_filename = some s ∧ s ≠ "" ∧
        pyStartsWith s "._" = false) → False := by
    rintro x rfl ⟨s, hsome, _, hfalse⟩
    rcases hname with h | ⟨s', hsome', htrue⟩
    · rw [h] at hsome
      exact Option.noConfusion hsome
    · rw [hsome'] at hsome
      injection hsome with h'
      rw [h'] at htrue
      rw [htrue] at hfalse
      exact Bool.noConfusion hfalse
  refine ⟨?_, ?_, ?_⟩
  · intro g hg hr
    simp only [analyze_database] at hg
    exact hcontra r rfl ((find_duplicate_groups_members fs ratio thr _ g hg).2
      r hr).2.2
  · intro hmm
    simp only [analyze_database] at hmm
    exact hpresent (by simpa using (List.mem_filter.mp hmm).2)
  · intro hid
    rw [ids_to_delete] at hid
    rcases List.mem_append.mp hid with h | h
    · obtain ⟨r', hr', hid'⟩ := List.mem_map.mp h
      simp only [analyze_database] at hr'
      have hr'mem : r' ∈ records := List.mem_of_mem_filter hr'
      have heq : r' = r := List.inj_on_of_nodup_map hids hr'mem hmem hid'
      rw [heq] at hr'
      exact hpresent (by simpa using (List.mem_filter.mp hr').2)
    · obtain ⟨g, hg, hidg⟩ := List.mem_flatMap.mp h
      simp only [analyze_database] at hg
      rw [groupDeleteIds] at hidg
      obtain ⟨r', hr', hid'⟩ := List.mem_map.mp hidg
      have hr'sort : r' ∈ sortGroup g :=
        (List.drop_sublist 1 (sortGroup g)).subset hr'
      rw [sortGroup] at hr'sort
      have hr'g : r' ∈ g := (List.perm_insertionSort keyLe g).mem_iff.mp hr'sort
      have hadm := (find_duplicate_groups_members fs ratio thr _ g hg).2 r' hr'g
      have hr'mem : r' ∈ records := List.mem_of_mem_filter hadm.1
      have heq : r' = r := List.inj_on_of_nodup_map hids hr'mem hmem hid'
      exact hcontra r' heq hadm.2.2

/-- Witness for C10: a present record named with the macOS metadata prefix
is in no cluster, not missing, and not recommended for removal. -/
theorem claim_c10_witness :
    (witMeta ∈ [witA, witMeta] ∧
      get_file_size witFS witMeta.stored_filename ≠ none) ∧
    ((∀ g ∈ (analyze_database witFS witRatio TRANSCRIPT_SIMILARITY_THRESHOLD
        [witA, witMeta]).duplicate_groups, witMeta ∉ g) ∧
      witMeta ∉ (analyze_database witFS witRatio
        TRANSCRIPT_SIMILARITY_THRESHOLD [witA, witMeta]).missing_files ∧
      witMeta.id ∉ ids_to_delete (analyze_database witFS witRatio
        TRANSCRIPT_SIMILARITY_THRESHOLD [witA, witMeta])) :=
  ⟨⟨by decide, by decide⟩,
    claim_c10_metadata_silently_excluded witFS witRatio
      TRANSCRIPT_SIMILARITY_THRESHOLD [witA, witMeta] witMeta
      (by decide) (by decide) (Or.inr ⟨"._R1.WAV", rfl, by decide⟩) (by decide)⟩

/-! ## Claim theorems: ingestion controller -/

theorem processTry_status_iff (w : FileWorld) (name stored srcPath : String) :
    (processTry w (initRec name stored srcPath)).status = .failed ↔
      (processTry w (initRec name stored srcPath)).error_message ≠ none := by
  rw [processTry, initRec]
  cases w.geminiRes with
  | error e => simp
  | ok og =>
    cases og with
    | none => simp
    | some r =>
      cases hc : r.cleanup with
      | none => simp [hc]
      | some s =>
        cases w.exportRes with
        | error e => simp [hc]
        | ok op =>
          cases op with
          | none => simp [hc]
          | some p => simp [hc]

/-- Counterexample for C2: in a two-file batch whose first file's copy to
storage raises, the exception escapes the controller (copy_and_rename runs
before the try block), no row is created or marked FAILED, and the second
file is never processed — the per-recording failure aborts the batch. -/
theorem claim_c2_counterexample :
    process_usb_drive [("a.wav", witCopyRaise), ("b.wav", witGeminiRaise)] []
      = ([], some "disk full") := rfl

/-- C2 corrected: failures raised inside the per-recording try block
(transcription and export) are isolated — with every copy succeeding, the
batch never aborts, each file leaves exactly one committed row, and a row
is FAILED exactly when its error_message is set; but a copy failure, which
happens before the try block, aborts the remainder of the batch (see the
counterexample). -/
theorem claim_c2_failure_isolation (files : List (String × FileWorld))
    (db0 : List Recording)
    (hcopy : ∀ p ∈ files, ∃ s, p.2.copyRes = .ok s) :
    process_usb_drive files db0 = (db0 ++ files.filterMap fileRecord, none) ∧
    (process_usb_drive files db0).1.length = db0.length + files.length ∧
    (∀ p ∈ files, ∀ r, fileRecord p = some r →
      (r.status = .failed ↔ r.error_message ≠ none)) := by
  have hmain : ∀ (fl : List (String × FileWorld)),
      (∀ p ∈ fl, ∃ s, p.2.copyRes = .ok s) → ∀ (db : List Recording),
      process_usb_drive fl db = (db ++ fl.filterMap fileRecord, none) ∧
      (fl.filterMap fileRecord).length = fl.length := by
    intro fl
    induction fl with
    | nil =>
      intro _ db
      simp [process_usb_drive]
    | cons p rest ih =>
      intro hc db
      obtain ⟨name, w⟩ := p
      obtain ⟨s, hs0⟩ := hc (name, w) (List.mem_cons_self _ _)
      have hs : w.copyRes = .ok s := hs0
      have hfr : fileRecord (name, w)
          = some (processTry w (initRec name s name)) := by
        simp [fileRecord, hs]
      have hrest := ih (fun q hq => hc q (List.mem_cons_of_mem _ hq))
        (db ++ [processTry w (initRec name s name)])
      constructor
      · rw [show process_usb_drive ((name, w) :: rest) db
            = process_usb_drive rest
                (db ++ [processTry w (initRec name s name)]) from by
          simp [process_usb_drive, hs]]
        rw [hrest.1, List.filterMap_cons_some hfr, List.append_assoc]
        rfl
      · rw [List.filterMap_cons_some hfr, List.length_cons, hrest.2,
          List.length_cons]
  have h := hmain files hcopy db0
  refine ⟨h.1, ?_, ?_⟩
  · rw [h.1, List.length_append, h.2]
  · intro p hp r hr
    obtain ⟨s, hs0⟩ := hcopy p hp
    have hs : p.2.copyRes = .ok s := hs0
    rw [show fileRecord p = some (processTry p.2 (initRec p.1 s p.1)) from by
      simp [fileRecord, hs]] at hr
    injection hr with hr'
    rw [← hr']
    exact processTry_status_iff p.2 p.1 s p.1

/-- Witness for C2: a one-file batch whose Gemini call raises is fully
processed — the batch does not abort, the row is committed, and it is
FAILED exactly because its error_message is set. -/
theorem claim_c2_witness :
    (∀ p ∈ [("a.wav", witGeminiRaise)], ∃ s, p.2.copyRes = .ok s) ∧
    process_usb_drive [("a.wav", witGeminiRaise)] []
      = ([] ++ [("a.wav", witGeminiRaise)].filterMap fileRecord, none) ∧
    (process_usb_drive [("a.wav", witGeminiRaise)] []).1.length = 0 + 1 := by
  have hc : ∀ p ∈ [("a.wav", witGeminiRaise)], ∃ s, p.2.copyRes = .ok s := by
    intro p hp
    rcases List.mem_singleton.mp hp with rfl
    exact ⟨"stored_a", rfl⟩
  have h := claim_c2_failure_isolation [("a.wav", witGeminiRaise)] [] hc
  exact ⟨hc, h.1, h.2.1⟩

/-- Counterexample for C3: when export raises after a successful
transcription, the controller's catch-all marks the Recording FAILED and
sets error_message — it does not remain COMPLETED with null error_message
as the claim states. -/
theorem claim_c3_counterexample :
    (processTry witExportRaise (initRec "a.wav" "st" "a.wav")).transcript
        = some "t" ∧
    (processTry witExportRaise (initRec "a.wav" "st" "a.wav")).status
        = .failed ∧
    (processTry witExportRaise (initRec "a.wav" "st" "a.wav")).error_message
        = some "disk full" := ⟨rfl, rfl, rfl⟩

/-- C3 corrected: when transcription succeeded (with a non-null summary)
and export fails by returning a falsy result, the Recording remains
COMPLETED with obsidian_path and error_message null; when export raises,
the catch-all sets FAILED and error_message. -/
theorem claim_c3_export_failure (w : FileWorld) (name stored srcPath : String)
    (r : GeminiResult) (s : String)
    (hg : w.geminiRes = .ok (some r)) (hs : r.cleanup = some s) :
    (w.exportRes = .ok none →
      processTry w (initRec name stored srcPath)
        = { original_filename := name, stored_filename := stored,
            source_path := srcPath, status := .completed,
            transcript := r.transcript, summary := some s, title := r.title,
            obsidian_path := none, error_message := none }) ∧
    (∀ e, w.exportRes = .error e →
      (processTry w (initRec name stored srcPath)).status = .failed ∧
      (processTry w (initRec name stored srcPath)).error_message = some e) := by
  constructor
  · intro hexp
    simp [processTry, initRec, hg, hs, hexp]
  · intro e hexp
    simp [processTry, initRec, hg, hs, hexp]

/-- Witness for C3: a concrete world with a complete result and a falsy
export leaves the row COMPLETED with null obsidian_path and error_message. -/
theorem claim_c3_witness :
    witExportNone.geminiRes = .ok (some ⟨some "t", some "s", some "ti"⟩) ∧
    witExportNone.exportRes = .ok none ∧
    processTry witExportNone (initRec "a.wav" "st" "a.wav")
      = { original_filename := "a.wav", stored_filename := "st",
          source_path := "a.wav", status := .completed,
          transcript := some "t", summary := some "s", title := some "ti",
          obsidian_path := none, error_message := none } :=
  ⟨rfl, rfl,
    (claim_c3_export_failure witExportNone "a.wav" "st" "a.wav"
      ⟨some "t", some "s", some "ti"⟩ "s" rfl rfl).1 rfl⟩

/-- Counterexample for C4: a Gemini result that lacks the cleanup key is
still treated as a successful transcription, and the mutated Recording ends
with transcript and title non-null but summary null — the triple is mixed,
not all-null-or-all-non-null. -/
theorem claim_c4_counterexample :
    witPartialResult.geminiRes = .ok (some ⟨some "hello", none, some "t"⟩) ∧
    (processTry witPartialResult (initRec "a.wav" "st" "a.wav")).transcript
        = some "hello" ∧
    (processTry witPartialResult (initRec "a.wav" "st" "a.wav")).summary
        = none ∧
    (processTry witPartialResult (initRec "a.wav" "st" "a.wav")).title
        = some "t" := ⟨rfl, rfl, rfl, rfl⟩

/-- C4 corrected: the transcript/summary/title fields are assigned together
from the result dictionary in one step — all stay null when transcription
did not produce a result, they mirror the result's individual fields when
it did, and they are all non-null exactly when the result supplies all
three keys; a partial result yields a mixed triple. -/
theorem claim_c4_triple_from_result (w : FileWorld) (name stored srcPath : String) :
    (∀ e, w.geminiRes = .error e →
      (processTry w (initRec name stored srcPath)).transcript = none ∧
      (processTry w (initRec name stored srcPath)).summary = none ∧
      (processTry w (initRec name stored srcPath)).title = none) ∧
    (w.geminiRes = .ok none →
      (processTry w (initRec name stored srcPath)).transcript = none ∧
      (processTry w (initRec name stored srcPath)).summary = none ∧
      (processTry w (initRec name stored srcPath)).title = none) ∧
    (∀ r, w.geminiRes = .ok (some r) →
      (processTry w (initRec name stored srcPath)).transcript = r.transcript ∧
      (processTry w (initRec name stored srcPath)).summary = r.cleanup ∧
      (processTry w (initRec name stored srcPath)).title = r.title) := by
  refine ⟨?_, ?_, ?_⟩
  · intro e hg
    simp [processTry, initRec, hg]
  · intro hg
    simp [processTry, initRec, hg]
  · intro r hg
    cases hc : r.cleanup with
    | none => simp [processTry, initRec, hg, hc]
    | some s =>
      cases hexp : w.exportRes with
      | error e => simp [processTry, initRec, hg, hc, hexp]
      | ok op =>
        cases op with
        | none => simp [processTry, initRec, hg, hc, hexp]
        | some p => simp [processTry, initRec, hg, hc, hexp]

/-- Witness for C4: with a complete result all three fields come out
non-null, mirroring the result. -/
theorem claim_c4_witness :
    witExportNone.geminiRes = .ok (some ⟨some "t", some "s", some "ti"⟩) ∧
    ((processTry witExportNone (initRec "a.wav" "st" "a.wav")).transcript
        = some "t" ∧
      (processTry witExportNone (initRec "a.wav" "st" "a.wav")).summary
        = some "s" ∧
      (processTry witExportNone (initRec "a.wav" "st" "a.wav")).title
        = some "ti") :=
  ⟨rfl, (claim_c4_triple_from_result witExportNone "a.wav" "st" "a.wav").2.2
    ⟨some "t", some "s", some "ti"⟩ rfl⟩

/-! ## Claim theorems: transcription retry policy -/

theorem process_audio_go_step (attempt : Nat → Except String GeminiResult)
    (fuel a : Nat) (ds : List Nat) :
    process_audio_go attempt (fuel + 1) a ds
      = (match attempt a with
         | .ok r => (some r, a, if 1 < a then ds ++ [3] else ds)
         | .error _ =>
           if fuel = 0 then (none, a, if 1 < a then ds ++ [3] else ds)
           else process_audio_go attempt fuel (a + 1)
             (if 1 < a then ds ++ [3] else ds)) := rfl

/-- C7: bounded retry contract of process_audio. With retry disabled
exactly one attempt is made with no delay; with retry enabled at most two
attempts are made, a single fixed 3-second delay precedes the second
attempt, a first success means no retry, a second success follows exactly
one delay, and when both attempts fail the caller sees the single terminal
failure None after exactly two attempts — the policy is not retried. -/
theorem claim_c7_bounded_retry (attempt : Nat → Except String GeminiResult) :
    ((process_audio false attempt).2.1 = 1 ∧
      (process_audio false attempt).2.2 = []) ∧
    (process_audio true attempt).2.1 ≤ 2 ∧
    (∀ r, attempt 1 = .ok r → process_audio true attempt = (some r, 1, [])) ∧
    (∀ e r, attempt 1 = .error e → attempt 2 = .ok r →
      process_audio true attempt = (some r, 2, [3])) ∧
    (∀ e₁ e₂, attempt 1 = .error e₁ → attempt 2 = .error e₂ →
      process_audio true attempt = (none, 2, [3])) := by
  have hfalse : process_audio false attempt
      = process_audio_go attempt 1 1 [] := rfl
  have htrue : process_audio true attempt
      = process_audio_go attempt 2 1 [] := rfl
  refine ⟨?_, ?_, ?_, ?_, ?_⟩
  · rw [hfalse, show (1 : Nat) = 0 + 1 from rfl, process_audio_go_step]
    cases h1 : attempt 1 <;> simp
  · rw [htrue, show (2 : Nat) = 1 + 1 from rfl, process_audio_go_step]
    cases h1 : attempt 1 with
    | ok r => simp
    | error e =>
      simp only [if_neg (by omega : ¬(1 : Nat) = 0), if_neg (by omega : ¬1 < 1)]
      rw [show (1 : Nat) = 0 + 1 from rfl, process_audio_go_step]
      cases h2 : attempt 2 <;> simp
  · intro r h1
    rw [htrue, show (2 : Nat) = 1 + 1 from rfl, process_audio_go_step, h1]
    simp
  · intro e r h1 h2
    rw [htrue, show (2 : Nat) = 1 + 1 from rfl, process_audio_go_step, h1]
    simp only [if_neg (by omega : ¬(1 : Nat) = 0), if_neg (by omega : ¬1 < 1)]
    rw [show (1 : Nat) = 0 + 1 from rfl, process_audio_go_step, h2]
    simp
  · intro e₁ e₂ h1 h2
    rw [htrue, show (2 : Nat) = 1 + 1 from rfl, process_audio_go_step, h1]
    simp only [if_neg (by omega : ¬(1 : Nat) = 0), if_neg (by omega : ¬1 < 1)]
    rw [show (1 : Nat) = 0 + 1 from rfl, process_audio_go_step, h2]
    simp

/-- Witness for C7: an always-failing attempt sequence makes exactly two
attempts with one 3-second delay and surfaces the single terminal None. -/
theorem claim_c7_witness :
    ((fun _ => (.error "boom" : Except String GeminiResult)) 1
        = .error "boom") ∧
    process_audio true (fun _ => .error "boom") = (none, 2, [3]) ∧
    (process_audio false (fun _ => .error "boom")).2.1 = 1 :=
  ⟨rfl,
    (claim_c7_bounded_retry (fun _ => .error "boom")).2.2.2.2 "boom" "boom"
      rfl rfl,
    (claim_c7_bounded_retry (fun _ => .error "boom")).1.1⟩

/-! ## Claim theorems: consistency checker -/

/-- Counterexample for C9: a Recording with a non-null summary and a null
title makes the checker iterate over None while deriving the filename; the
TypeError escapes the reporting boundary and aborts the run. -/
theorem claim_c9_counterexample :
    check_consistency (fun _ => none) [witNoTitle]
      = .error "TypeError: argument of type NoneType is not iterable" := rfl

theorem checkOne_ok (vault : Vault) (rec : Recording)
    (h : truthy rec.summary = true → rec.title ≠ none) :
    ∃ fds, checkOne vault rec = .ok fds := by
  rw [checkOne]
  by_cases ht : truthy rec.summary = false
  · rw [if_pos ht]
    exact ⟨[], rfl⟩
  · rw [if_neg ht]
    have htitle : rec.title ≠ none := by
      refine h ?_
      revert ht
      cases truthy rec.summary <;> simp
    cases htt : rec.title with
    | none => exact absurd htt htitle
    | some t =>
      cases hv : vault (sanitizeTitle t ++ ".md") with
      | none => exact ⟨[.missing (sanitizeTitle t ++ ".md")], by simp [hv]⟩
      | some res =>
        cases res with
        | error e =>
          exact ⟨[.readError (sanitizeTitle t ++ ".md") e], by simp [hv]⟩
        | ok content =>
          by_cases hcs : containsSub content (pyStrip (rec.summary.getD ""))
              = false
          · exact ⟨[.mismatch (sanitizeTitle t ++ ".md")], by simp [hv, hcs]⟩
          · by_cases h3 : (containsSub (pyLower (rec.summary.getD ""))
                "the speaker" ||
              containsSub (pyLower (rec.summary.getD "")) "he mentions" ||
              containsSub (pyLower (rec.summary.getD "")) "she mentions") = true
            · exact ⟨[.thirdPerson (sanitizeTitle t ++ ".md")],
                by simp [hv, hcs, h3]⟩
            · exact ⟨[], by simp [hv, hcs, h3]⟩

/-- C9 corrected: on every store in which a record with a truthy summary
also has a non-null title, the checker is total — it returns the store it
was given unchanged (it performs no mutation) together with its findings,
counting one issue per finding — and an artifact that exists but cannot be
read produces an ERROR finding instead of an escaping exception; but a
truthy summary with a null title makes a TypeError escape (see the
counterexample). -/
theorem claim_c9_checker_total (vault : Vault) (recs : List Recording)
    (htitle : ∀ rec ∈ recs, truthy rec.summary = true → rec.title ≠ none) :
    (∃ fds n, check_consistency vault recs = .ok (recs, fds, n) ∧
      n = fds.length) ∧
    (∀ rec : Recording, truthy rec.summary = true → ∀ t e, rec.title = some t →
      vault (sanitizeTitle t ++ ".md") = some (.error e) →
      checkOne vault rec = .ok [.readError (sanitizeTitle t ++ ".md") e]) := by
  constructor
  · induction recs with
    | nil => exact ⟨[], 0, rfl, rfl⟩
    | cons rec rest ih =>
      obtain ⟨fds1, h1⟩ := checkOne_ok vault rec
        (htitle rec (List.mem_cons_self _ _))
      obtain ⟨fds, n, hrest, hn⟩ := ih
        (fun q hq => htitle q (List.mem_cons_of_mem _ hq))
      refine ⟨fds1 ++ fds, fds1.length + n, ?_, by simp [hn]⟩
      rw [show check_consistency vault (rec :: rest)
          = (match checkOne vault rec with
             | .error e => .error e
             | .ok fds' =>
               match check_consistency vault rest with
               | .error e => .error e
               | .ok (store, fds2, n') =>
                 .ok (rec :: store, fds' ++ fds2, fds'.length + n')) from rfl]
      rw [h1, hrest]
  · intro rec htr t e htt hv
    rw [checkOne, if_neg (by simp [htr])]
    simp only [htt, hv]

/-- Witness for C9: a store with one well-formed record whose artifact is
unreadable; the checker returns the store unchanged and the unreadable
artifact is reported via checkOne as an ERROR finding. -/
theorem claim_c9_witness :
    (∀ rec ∈ [witReadable], truthy rec.summary = true → rec.title ≠ none) ∧
    (∃ fds n, check_consistency witVault [witReadable]
        = .ok ([witReadable], fds, n) ∧ n = fds.length) ∧
    (∀ rec : Recording, truthy rec.summary = true → ∀ t e, rec.title = some t →
      witVault (sanitizeTitle t ++ ".md") = some (.error e) →
      checkOne witVault rec = .ok [.readError (sanitizeTitle t ++ ".md") e]) := by
  have ht : ∀ rec ∈ [witReadable], truthy rec.summary = true →
      rec.title ≠ none := by decide
  have h := claim_c9_checker_total witVault [witReadable] ht
  exact ⟨ht, h.1, h.2⟩
